import Mathlib

/-!
Shallow embedding of the CSI capture-and-transform pipeline of
`csi_realTimeAmp.py` (repository Witchaz/csi-visualizer).

Conventions of the embedding:
* Byte buffers are `List ℕ` (each entry a byte value `0..255`).
* Python floats are modelled exactly: capture timestamps as `ℚ`,
  amplitudes as `ℝ` (the magnitude involves a square root).
* Python exceptions are modelled by `Except` / an explicit error
  constructor; an uncaught exception terminates the capture loop.
* `numpy` and `dpkt` are external libraries; the definitions below model
  precisely the behaviour of the calls the script makes (documented at
  each definition).
-/

/-- Global configuration, `csi_realTimeAmp.py` line 17: `BANDWIDTH = 20`. -/
def BANDWIDTH : ℕ := 20

/-- Subcarrier count from a bandwidth value: `int(bandwidth * 3.2)`
(`process_csi_data`, line 109).  `3.2 = 16/5` and the header field is a
natural number, so Python's truncating `int` is `16 * b / 5` in exact
arithmetic (ℕ-division truncates). -/
def nsub (bandwidth : ℕ) : ℕ := 16 * bandwidth / 5

/-- Line 18: `NSUB = int(BANDWIDTH * 3.2)`, i.e. 64. -/
def NSUB : ℕ := nsub BANDWIDTH

/-- Line 20: `show_packet_length = 100` (the display window length W). -/
def show_packet_length : ℕ := 100

/-- Line 21: `GAP_PACKET_NUM = 20` (the gap reset cadence G). -/
def GAP_PACKET_NUM : ℕ := 20

/-- Line 19: `selected_mac = '5c0214fb6552'`, as the 6 bytes this hex
string denotes (the script compares it with `udp.data[4:10].hex()`;
equality of the hex strings is equality of the byte sequences). -/
def selected_mac : List ℕ := [92, 2, 20, 251, 101, 82]

/-- Python's `int()` on a number: truncation toward zero. -/
def pyInt (x : ℚ) : ℤ := if 0 ≤ x then ⌊x⌋ else ⌈x⌉

/-- `truncate(num, n)` (lines 44-49): `int(num * (10 ** n)) / (10 ** n)`. -/
def truncate (num : ℚ) (n : ℕ) : ℚ := (pyInt (num * 10 ^ n) : ℚ) / 10 ^ n

/-- The Python exceptions that the script can hit on the capture path. -/
inductive PyErr where
  /-- `dpkt.NeedData`, raised by `dpkt.ethernet.Ethernet(pkt)` on a
  buffer shorter than the 14-byte Ethernet header. -/
  | needData
  /-- `AttributeError`, raised at `udp = ip.data` / `udp.data[4:10]` when
  an inner dpkt layer failed to parse and left a plain `bytes` object
  (dpkt catches inner `UnpackError`s and stores the raw bytes). -/
  | attributeError
  /-- `ValueError`, raised by `np.frombuffer(csi, dtype=np.int16,
  count=nsub*2)` when the buffer holds fewer than `count` items. -/
  | valueError
deriving DecidableEq

/-- One little-endian signed 16-bit integer from two bytes
(`np.frombuffer(..., dtype=np.int16)` element decoding). -/
def int16 (lo hi : ℕ) : ℤ :=
  if lo + 256 * hi < 32768 then (lo + 256 * hi : ℤ) else (lo + 256 * hi : ℤ) - 65536

/-- Decode a byte buffer as consecutive little-endian int16 values
(`np.frombuffer(csi, dtype=np.int16, ...)`); a trailing odd byte is
never reached because the caller passes a buffer of even length. -/
def bytesToInt16 : List ℕ → List ℤ
  | b0 :: b1 :: rest => int16 b0 b1 :: bytesToInt16 rest
  | _ => []

/-- Pair up the int16 stream into (real, imaginary) samples:
`csi_np[:1, ::2] + 1.j * csi_np[:1, 1::2]` (line 116) takes the even
indices as real parts and the odd indices as imaginary parts. -/
def pairUp : List ℤ → List (ℤ × ℤ)
  | re :: im :: rest => (re, im) :: pairUp rest
  | _ => []

/-- `np.fft.fftshift` on a one-dimensional sequence of length `n`:
a cyclic roll by `n / 2`, i.e. the last `n - n/2` elements followed by
the first `n - n/2` elements. -/
def fftshift {α : Type} (x : List α) : List α :=
  x.drop (x.length - x.length / 2) ++ x.take (x.length - x.length / 2)

/-- The complex-sample part of `process_csi_data` (lines 105-116):
`np.frombuffer(csi, dtype=np.int16, count=nsub * 2)` (raising
`ValueError` when the buffer is shorter than `4 * nsub` bytes, and
reading only the first `4 * nsub` bytes otherwise), the even/odd
split into complex samples, and `np.fft.fftshift`. -/
def csiComplex (csi : List ℕ) (bandwidth : ℕ) : Except PyErr (List (ℤ × ℤ)) :=
  if csi.length < 4 * nsub bandwidth then .error .valueError
  else .ok (fftshift (pairUp (bytesToInt16 (csi.take (4 * nsub bandwidth)))))

/-- `np.abs` of one complex sample: the Euclidean magnitude. -/
noncomputable def amp (z : ℤ × ℤ) : ℝ :=
  Real.sqrt ((z.1 : ℝ) ^ 2 + (z.2 : ℝ) ^ 2)

/-- `process_csi_data(csi, bandwidth)` (lines 105-117): the complex
samples of `csiComplex` reduced to their magnitudes
(`list(np.abs(csi_cmplx)[0])`). -/
noncomputable def process_csi_data (csi : List ℕ) (bandwidth : ℕ) :
    Except PyErr (List ℝ) :=
  Except.map (List.map amp) (csiComplex csi bandwidth)

/-- The mutable display state threaded through `update_plot`:
the per-subcarrier windows `y_list`, the min/max accumulator `minmax`
and the cadence counter `gap_count` (lines 160-164 initialise them). -/
structure PlotState (α : Type) where
  y_list : List (List α)
  minmax : List (α × α)
  gap_count : ℕ

/-- One window update (lines 124-126): `del y[0]; y.append(new_y)`.
(`del y[0]` on an empty window would raise `IndexError`; every window
of the script has length `show_packet_length > 0`.) -/
def windowStep {α : Type} (y : List α) (v : α) : List α := y.tail ++ [v]

/-- The non-boundary min/max update (lines 133-137): for each `i` below
the length of the value list, `minmax[i][0] = min(minmax[i][0], new_y)`
and `minmax[i][1] = max(minmax[i][1], new_y)`, written with the source's
comparisons; entries of `minmax` beyond the value list are untouched.
(Python would raise `IndexError` if `minmax` were shorter than the value
list; the script always keeps `len(minmax) ≥ len(y_list)`.) -/
def widenAt {α : Type} [LinearOrder α] : List (α × α) → List α → List (α × α)
  | mm, [] => mm
  | [], _ :: _ => []
  | (lo, hi) :: mm, v :: vs =>
      (if v < lo then v else lo, if hi < v then v else hi) :: widenAt mm vs

/-- Python's `max` over a list: `none` on the empty list (where Python
raises `ValueError`). -/
def pymax {α : Type} [LinearOrder α] : List α → Option α
  | [] => none
  | x :: xs =>
      some (match pymax xs with
            | none => x
            | some m => max x m)

/-- Lines 140-141: `gap_list = [mm[1] - mm[0] for mm in minmax]`,
`gap = max(gap_list)`. -/
def gapOf {α : Type} [LinearOrder α] [Sub α] (minmax : List (α × α)) : Option α :=
  pymax (minmax.map (fun mm => mm.2 - mm.1))

/-- `update_plot` (lines 119-146) without the drawing calls: update every
window; when `gap_count == 0` append a fresh `[new_y, new_y]` pair per
subcarrier to `minmax`, otherwise widen the leading entries of `minmax`;
report the gap over the whole accumulator; advance the counter
`(gap_count + 1) % GAP_PACKET_NUM`.  The source iterates
`for i, y in enumerate(y_list)` reading `csi_data[i]`, hence exactly
`len(y_list)` values of `csi_data` are consumed. -/
def update_plot {α : Type} [LinearOrder α] [Sub α] (st : PlotState α)
    (csi_data : List α) : PlotState α × Option α :=
  let y_list' := List.zipWith windowStep st.y_list csi_data
  let minmax' :=
    if st.gap_count = 0 then
      st.minmax ++ (csi_data.take st.y_list.length).map (fun v => (v, v))
    else
      widenAt st.minmax (csi_data.take st.y_list.length)
  (⟨y_list', minmax', (st.gap_count + 1) % GAP_PACKET_NUM⟩, gapOf minmax')

/-- Iterated `update_plot` over a sequence of accepted amplitude
vectors (one call per accepted frame of the capture loop). -/
def runPlot {α : Type} [LinearOrder α] [Sub α] (st : PlotState α) :
    List (List α) → PlotState α
  | [] => st
  | c :: cs => runPlot (update_plot st c).1 cs

/-- `setup_plot`'s window initialisation (lines 88-89): `NSUB` windows,
each `show_packet_length` zeros. -/
def setup_y_list {α : Type} [Zero α] : List (List α) :=
  List.replicate NSUB (List.replicate show_packet_length 0)

/-- Line 187: `bandwidth = ip.__hdr__[2][2]`.  `dpkt.ip.IP.__hdr__` is
the class-level field-descriptor tuple; its third entry is
`('len', 'H', 20)`, so `[2][2]` is the constant default value 20 of the
total-length field, independent of the captured frame. -/
def dpkt_ip_len_default : ℕ := 20

/-- The declared total-length field of the frame's IP header (bytes 16
and 17 of the captured frame, big-endian), which `bandwidth =
ip.__hdr__[2][2]` does NOT read. -/
def ip_len_field (pkt : List ℕ) : ℕ := 256 * pkt.getD 16 0 + pkt.getD 17 0

/-- The frame decoding of lines 176-186 via dpkt:
`eth = dpkt.ethernet.Ethernet(pkt); ip = eth.data; udp = ip.data`, and
the uses `udp.data[...]`.  Returns the UDP payload `udp.data`.
dpkt raises `NeedData` if the buffer is shorter than the 14-byte
Ethernet header.  Every other malformation (non-IPv4 ethertype, IP
buffer shorter than 20 bytes, invalid IP header length, non-UDP
protocol, UDP buffer shorter than 8 bytes) leaves `eth.data` or
`ip.data` as a plain `bytes` object — dpkt catches the inner unpack
errors — so the attribute accesses `ip.data` / `udp.data` raise
`AttributeError`.  The IP payload is `buf[hl:len]` (Python slicing,
clamped), with the jumbo convention `buf[hl:]` when `len == 0`; the UDP
payload is everything after the 8-byte UDP header. -/
def parseFrame (pkt : List ℕ) : Except PyErr (List ℕ) :=
  if pkt.length < 14 then .error .needData
  else if 256 * pkt.getD 12 0 + pkt.getD 13 0 ≠ 2048 then .error .attributeError
  else
    let ipbuf := pkt.drop 14
    if ipbuf.length < 20 then .error .attributeError
    else if (ipbuf.getD 0 0 % 16) * 4 < 20 then .error .attributeError
    else
      let hl := (ipbuf.getD 0 0 % 16) * 4
      let ipLen := 256 * ipbuf.getD 2 0 + ipbuf.getD 3 0
      let udpbuf := if ipLen = 0 then ipbuf.drop hl else (ipbuf.take ipLen).drop hl
      if ipbuf.getD 9 0 ≠ 17 then .error .attributeError
      else if udpbuf.length < 8 then .error .attributeError
      else .ok (udpbuf.drop 8)

/-- The duplicate-timestamp test of lines 168-171: the integer-truncated
timestamps are equal AND the timestamps truncated to one decimal place
are equal. -/
def isDup (before_ts ts : ℚ) : Prop :=
  pyInt ts = pyInt before_ts ∧ truncate ts 1 = truncate before_ts 1

instance (b t : ℚ) : Decidable (isDup b t) :=
  inferInstanceAs (Decidable (_ ∧ _))

/-- The state the capture loop `sniffing` threads between iterations:
`before_ts` (line 160), the plot state, and the rows appended to the
CSV sink so far (`append_to_csv`, line 192). -/
structure SniffState where
  before_ts : ℚ
  plot : PlotState ℝ
  outputs : List (List ℝ)

/-- The four ways one iteration of the `for ts, pkt in sniffer` body can
end: `continue` at the duplicate check (line 173), `continue` at the MAC
check (line 183), full processing, or an uncaught exception that
terminates the loop. -/
inductive StepResult where
  | skipDup (st : SniffState)
  | skipMac (st : SniffState)
  | accept (st : SniffState)
  | raise (e : PyErr)

/-- One iteration of the capture loop body (lines 166-201): duplicate
suppression (updating `before_ts`, line 172), frame decoding, the MAC
filter `udp.data[4:10].hex() != mac_address` (which does not touch
`before_ts`), then `csi = udp.data[18:]`,
`bandwidth = ip.__hdr__[2][2]`, `process_csi_data`, the CSV append, the
plot update, and `before_ts = ts`. -/
noncomputable def sniffStep (mac_address : List ℕ) (st : SniffState)
    (ts : ℚ) (pkt : List ℕ) : StepResult :=
  if isDup st.before_ts ts then
    .skipDup { st with before_ts := ts }
  else
    match parseFrame pkt with
    | .error e => .raise e
    | .ok payload =>
      if (payload.drop 4).take 6 ≠ mac_address then .skipMac st
      else
        match process_csi_data (payload.drop 18) dpkt_ip_len_default with
        | .error e => .raise e
        | .ok csi_data =>
          .accept { before_ts := ts
                    plot := (update_plot st.plot csi_data).1
                    outputs := st.outputs ++ [csi_data] }

/-- The capture loop over a finite captured-frame sequence: each
iteration either continues with the new state or, on an uncaught
exception, terminates the whole loop with that error. -/
noncomputable def runSniff (mac_address : List ℕ) (st : SniffState) :
    List (ℚ × List ℕ) → Except PyErr SniffState
  | [] => .ok st
  | (ts, pkt) :: rest =>
      match sniffStep mac_address st ts pkt with
      | .skipDup s => runSniff mac_address s rest
      | .skipMac s => runSniff mac_address s rest
      | .accept s => runSniff mac_address s rest
      | .raise e => .error e

/-- Initial capture-loop state (lines 160-163): `before_ts = 0.0`,
fresh windows, empty `minmax`, `gap_count = 0`, no CSV rows yet. -/
noncomputable def sniffInit : SniffState :=
  ⟨0, ⟨setup_y_list, [], 0⟩, []⟩

/-- Observation helper: the length of the single forwarded amplitude
vector of an accepted first frame (`none` unless the step accepted). -/
noncomputable def acceptedAmpLen : StepResult → Option ℕ
  | .accept s => some ((s.outputs.getD 0 []).length)
  | _ => none

/-! ## Concrete evaluation inputs -/

/-- A plot state with a single subcarrier window of `show_packet_length`
zeros (the `setup_plot` shape restricted to one line), empty accumulator,
`gap_count = 0`. -/
def plotInit1 : PlotState ℚ := ⟨[List.replicate show_packet_length 0], [], 0⟩

/-- The single-subcarrier plot state over the integers (`update_plot` is
generic in the ordered amplitude type; integer amplitudes make the
concrete evaluations kernel-computable). -/
def plotInitZ : PlotState ℤ := ⟨[List.replicate show_packet_length 0], [], 0⟩

/-- The C1 scenario: 20 accepted frames with amplitudes 1..20 on the one
subcarrier, then a 21st frame (a reset boundary) with amplitude 21. -/
def rampFrames : List (List ℤ) :=
  [[1], [2], [3], [4], [5], [6], [7], [8], [9], [10], [11], [12], [13],
   [14], [15], [16], [17], [18], [19], [20], [21]]

/-- `show_packet_length` single-subcarrier frames with distinct
amplitudes 0..99. -/
def distinctFrames : List (List ℚ) :=
  (List.range show_packet_length).map (fun k => [(k : ℚ)])

/-- A well-formed Ethernet/IPv4/UDP frame: 14-byte Ethernet header with
ethertype 0x0800, 20-byte IPv4 header with the given total-length field
bytes, protocol 17 (UDP), an 8-byte UDP header, then the UDP payload. -/
def mkPkt (lenHi lenLo : ℕ) (udpPayload : List ℕ) : List ℕ :=
  List.replicate 12 0 ++ [8, 0] ++
    ([69, 0, lenHi, lenLo] ++ List.replicate 4 0 ++ [64, 17] ++
      List.replicate 10 0) ++
    List.replicate 8 0 ++ udpPayload

/-- A UDP payload carrying the target MAC at offset 4 and a full
`4 * 64 = 256`-byte CSI block at offset 18. -/
def payload256 : List ℕ :=
  [0, 0, 0, 0] ++ selected_mac ++ List.replicate 8 0 ++ List.replicate 256 0

/-- Frame with the true IP total length declared (20+8+274 = 302). -/
def pktFull : List ℕ := mkPkt 1 46 payload256

/-- The same frame except the IP total-length field declares 2000. -/
def pktFullBigLen : List ℕ := mkPkt 7 208 payload256

/-- A UDP payload carrying the target MAC but no CSI bytes at all. -/
def payloadShort : List ℕ := [0, 0, 0, 0] ++ selected_mac ++ List.replicate 8 0

/-- Accepted-looking frame whose CSI payload is empty (0 < 256 bytes). -/
def pktShortCsi : List ℕ := mkPkt 0 46 payloadShort

/-- Accepted-looking frame whose CSI payload has just 2 bytes. -/
def pktShortCsi2 : List ℕ := mkPkt 0 48 (payloadShort ++ [0, 0])

/-- A capture-loop state with an empty plot, `before_ts = 0`. -/
def sniffState0 : SniffState := ⟨0, ⟨[], [], 0⟩, []⟩

/-- A capture-loop state whose previous timestamp is 12.34 and whose
outputs hold one (empty) forwarded row. -/
def sniffStateTs : SniffState := ⟨617 / 50, ⟨[], [], 0⟩, [[]]⟩

/-! ## Helper lemmas -/

theorem bytesToInt16_length : ∀ l : List ℕ, (bytesToInt16 l).length = l.length / 2
  | [] => by simp [bytesToInt16]
  | [_] => by simp [bytesToInt16]
  | _ :: _ :: rest => by
      simp only [bytesToInt16, List.length_cons, bytesToInt16_length rest]
      omega

theorem pairUp_length : ∀ l : List ℤ, (pairUp l).length = l.length / 2
  | [] => by simp [pairUp]
  | [_] => by simp [pairUp]
  | _ :: _ :: rest => by
      simp only [pairUp, List.length_cons, pairUp_length rest]
      omega

theorem fftshift_length {α : Type} (x : List α) : (fftshift x).length = x.length := by
  simp only [fftshift, List.length_append, List.length_drop, List.length_take]
  omega

theorem fftshift_append_eq {α : Type} (u v : List α) (huv : u.length = v.length) :
    fftshift (u ++ v) = v ++ u := by
  have hn : (u ++ v).length - (u ++ v).length / 2 = u.length := by
    simp only [List.length_append]; omega
  simp only [fftshift, hn, List.drop_left, List.take_left]

theorem fftshift_fftshift {α : Type} (x : List α) (h : x.length % 2 = 0) :
    fftshift (fftshift x) = x := by
  have hsplit : x = x.take (x.length / 2) ++ x.drop (x.length / 2) :=
    (List.take_append_drop _ x).symm
  have hlen : (x.take (x.length / 2)).length = (x.drop (x.length / 2)).length := by
    simp only [List.length_take, List.length_drop]
    omega
  calc fftshift (fftshift x)
      = fftshift (fftshift (x.take (x.length / 2) ++ x.drop (x.length / 2))) := by
        rw [← hsplit]
    _ = fftshift (x.drop (x.length / 2) ++ x.take (x.length / 2)) := by
        rw [fftshift_append_eq _ _ hlen]
    _ = x.take (x.length / 2) ++ x.drop (x.length / 2) :=
        fftshift_append_eq _ _ hlen.symm
    _ = x := List.take_append_drop _ x

theorem process_csi_ok (csi : List ℕ) (b : ℕ) (h : 4 * nsub b ≤ csi.length) :
    process_csi_data csi b =
      .ok (List.map amp (fftshift (pairUp (bytesToInt16 (csi.take (4 * nsub b)))))) := by
  unfold process_csi_data csiComplex
  rw [if_neg (by omega)]
  rfl

theorem process_csi_err (csi : List ℕ) (b : ℕ) (h : csi.length < 4 * nsub b) :
    process_csi_data csi b = .error .valueError := by
  unfold process_csi_data csiComplex
  rw [if_pos h]
  rfl

/-! ## C8 -/

/-- C8: for every complex sequence of length `N` (the subcarrier count,
`NSUB = 64`), applying the centered frequency-shift reorder twice
returns the original sequence: the reorder is self-inverse. -/
theorem fftshift_self_inverse (x : List (ℤ × ℤ)) (h : x.length = NSUB) :
    fftshift (fftshift x) = x :=
  fftshift_fftshift x (by rw [h]; rfl)

theorem fftshift_self_inverse_witness :
    fftshift (fftshift (List.replicate NSUB ((1 : ℤ), (0 : ℤ)))) =
      List.replicate NSUB ((1 : ℤ), (0 : ℤ)) :=
  fftshift_self_inverse _ (by simp)

/-! ## C2 -/

/-- C2: for every bandwidth `b` and every payload of at least
`4 * N` bytes with `N = nsub b`, the amplitude extraction succeeds and
returns a vector of exactly `N` non-negative reals, consuming only the
first `4 * N` payload bytes: the result is unchanged by appending
arbitrary trailing bytes. -/
theorem extract_shape (b : ℕ) (csi : List ℕ) (h : 4 * nsub b ≤ csi.length) :
    ∃ v, process_csi_data csi b = .ok v ∧ v.length = nsub b ∧
      (∀ x ∈ v, 0 ≤ x) ∧ ∀ extra, process_csi_data (csi ++ extra) b = .ok v := by
  refine ⟨_, process_csi_ok csi b h, ?_, ?_, ?_⟩
  · rw [List.length_map, fftshift_length, pairUp_length, bytesToInt16_length,
      List.length_take]
    omega
  · intro x hx
    obtain ⟨z, _, rfl⟩ := List.mem_map.1 hx
    exact Real.sqrt_nonneg _
  · intro extra
    rw [process_csi_ok (csi ++ extra) b (by rw [List.length_append]; omega),
      List.take_append_of_le_length h]

theorem extract_shape_witness :
    ∃ v, process_csi_data (List.replicate 64 0) 5 = .ok v ∧ v.length = nsub 5 ∧
      (∀ x ∈ v, 0 ≤ x) ∧
      ∀ extra, process_csi_data (List.replicate 64 0 ++ extra) 5 = .ok v :=
  extract_shape 5 (List.replicate 64 0) (by decide)

/-! ## Window lemmas -/

theorem windowStep_length {α : Type} (y : List α) (v : α) (h : y ≠ []) :
    (windowStep y v).length = y.length := by
  cases y with
  | nil => exact absurd rfl h
  | cons a t => simp [windowStep]

theorem windowStep_ne_nil {α : Type} (y : List α) (v : α) : windowStep y v ≠ [] := by
  simp [windowStep]

theorem foldl_windowStep_length {α : Type} :
    ∀ (vs : List α) (y : List α), y ≠ [] →
      (List.foldl windowStep y vs).length = y.length
  | [], _, _ => rfl
  | v :: vs, y, h => by
      rw [List.foldl_cons, foldl_windowStep_length vs _ (windowStep_ne_nil y v),
        windowStep_length y v h]

theorem foldl_windowStep_eq {α : Type} :
    ∀ (vs : List α) (y : List α), vs.length ≤ y.length →
      List.foldl windowStep y vs = y.drop vs.length ++ vs
  | [], y, _ => by simp
  | v :: vs, y, h => by
      have hy : y ≠ [] := by
        intro he
        rw [he] at h
        simp at h
      have hvs : vs.length ≤ y.tail.length := by
        rw [List.length_tail]
        simp only [List.length_cons] at h
        omega
      have htail : vs.length ≤ (windowStep y v).length := by
        rw [windowStep_length y v hy]
        simp only [List.length_cons] at h
        omega
      rw [List.foldl_cons, foldl_windowStep_eq vs _ htail]
      show (y.tail ++ [v]).drop vs.length ++ vs = _
      rw [List.drop_append_of_le_length hvs, ← List.drop_one, List.drop_drop,
        List.append_assoc, List.singleton_append, List.length_cons,
        Nat.add_comm 1 vs.length]

theorem zipWith_windowStep_getD {α : Type} (d : α) :
    ∀ (ys : List (List α)) (c : List α) (i : ℕ), i < ys.length → ys.length ≤ c.length →
      (List.zipWith windowStep ys c).getD i [] =
        windowStep (ys.getD i []) (c.getD i d)
  | [], _, i, hi, _ => by simp at hi
  | _ :: _, [], _, _, hlen => by simp at hlen
  | y :: ys, v :: c, 0, _, _ => by simp
  | y :: ys, v :: c, i + 1, hi, hlen => by
      simp only [List.zipWith_cons_cons, List.getD_cons_succ]
      exact zipWith_windowStep_getD d ys c i (by simpa using hi) (by simpa using hlen)

theorem update_plot_y_list {α : Type} [LinearOrder α] [Sub α] (st : PlotState α)
    (c : List α) :
    (update_plot st c).1.y_list = List.zipWith windowStep st.y_list c := rfl

theorem runPlot_window {α : Type} [LinearOrder α] [Sub α] (d : α) :
    ∀ (frames : List (List α)) (st : PlotState α) (i : ℕ),
      i < st.y_list.length → (∀ c ∈ frames, st.y_list.length ≤ c.length) →
      (runPlot st frames).y_list.getD i [] =
        List.foldl windowStep (st.y_list.getD i []) (frames.map (fun c => c.getD i d))
  | [], _, _, _, _ => rfl
  | c :: cs, st, i, hi, hlen => by
      have hc : st.y_list.length ≤ c.length := hlen c (List.mem_cons_self c cs)
      have hy' : (update_plot st c).1.y_list.length = st.y_list.length := by
        rw [update_plot_y_list, List.length_zipWith]
        omega
      rw [List.map_cons, List.foldl_cons]
      show (runPlot (update_plot st c).1 cs).y_list.getD i [] = _
      rw [runPlot_window d cs _ i (by rw [hy']; exact hi)
        (fun c' hc' => by rw [hy']; exact hlen c' (List.mem_cons_of_mem _ hc'))]
      congr 1
      rw [update_plot_y_list]
      exact zipWith_windowStep_getD d st.y_list c i hi hc

/-! ## C3 -/

/-- C3: from any state whose windows all have the display length `W =
show_packet_length`, the window of each subcarrier `i` keeps length `W`
invariantly under any run of updates (each update evicts the oldest
entry and appends the new value), and after exactly `W` consecutive
updates the window contains exactly the `W` delivered values for
subcarrier `i` in arrival order. -/
theorem window_fifo_contents (st : PlotState ℚ) (frames : List (List ℚ)) (i : ℕ)
    (hi : i < st.y_list.length)
    (hW : ∀ y ∈ st.y_list, y.length = show_packet_length)
    (hlen : ∀ c ∈ frames, st.y_list.length ≤ c.length) :
    ((runPlot st frames).y_list.getD i []).length = show_packet_length ∧
      (frames.length = show_packet_length →
        (runPlot st frames).y_list.getD i [] = frames.map (fun c => c.getD i 0)) := by
  have hyi : st.y_list.getD i [] ∈ st.y_list := by
    rw [List.getD_eq_getElem _ _ hi]
    exact List.getElem_mem _
  have hyW : (st.y_list.getD i []).length = show_packet_length := hW _ hyi
  have hne : st.y_list.getD i [] ≠ [] := by
    intro he
    rw [he] at hyW
    simp [show_packet_length] at hyW
  rw [runPlot_window 0 frames st i hi hlen]
  constructor
  · rw [foldl_windowStep_length _ _ hne, hyW]
  · intro hF
    rw [foldl_windowStep_eq _ _ (by rw [List.length_map, hyW, hF]),
      List.length_map, hF, ← hyW, List.drop_length, List.nil_append]

theorem window_fifo_contents_witness :
    ((runPlot plotInit1 distinctFrames).y_list.getD 0 []).length = show_packet_length ∧
      (distinctFrames.length = show_packet_length →
        (runPlot plotInit1 distinctFrames).y_list.getD 0 [] =
          distinctFrames.map (fun c => c.getD 0 0)) :=
  window_fifo_contents plotInit1 distinctFrames 0 (by simp [plotInit1])
    (by simp [plotInit1])
    (by
      intro c hc
      simp only [distinctFrames, List.mem_map] at hc
      obtain ⟨k, -, rfl⟩ := hc
      simp [plotInit1])

/-! ## Accumulator lemmas -/

theorem pymax_mem {α : Type} [LinearOrder α] :
    ∀ (l : List α) (m : α), pymax l = some m → m ∈ l
  | [], m, h => by simp [pymax] at h
  | x :: xs, m, h => by
      rw [pymax] at h
      cases hx : pymax xs with
      | none =>
          rw [hx] at h
          simp at h
          simp [h]
      | some m' =>
          rw [hx] at h
          simp at h
          rcases max_choice x m' with hm | hm
          · rw [hm] at h
            simp [h]
          · rw [hm] at h
            subst h
            exact List.mem_cons_of_mem _ (pymax_mem xs m' hx)

theorem le_pymax_of_mem {α : Type} [LinearOrder α] :
    ∀ (l : List α) (a : α), a ∈ l → ∃ m, pymax l = some m ∧ a ≤ m
  | [], a, h => absurd h (List.not_mem_nil a)
  | x :: xs, a, h => by
      cases hx : pymax xs with
      | none =>
          have hxs : xs = [] := by
            cases xs with
            | nil => rfl
            | cons b t => rw [pymax] at hx; simp at hx
          subst hxs
          rw [List.mem_singleton] at h
          subst h
          exact ⟨a, by rw [pymax, hx], le_refl a⟩
      | some m' =>
          refine ⟨max x m', by rw [pymax, hx], ?_⟩
          rcases List.mem_cons.1 h with rfl | hmem
          · exact le_max_left _ _
          · obtain ⟨m, hm, ham⟩ := le_pymax_of_mem xs a hmem
            rw [hx] at hm
            injection hm with hm
            subst hm
            exact le_trans ham (le_max_right _ _)

theorem pymax_dominated {α : Type} [LinearOrder α] (l₁ l₂ : List α)
    (hdom : ∀ a ∈ l₁, ∃ b ∈ l₂, a ≤ b) (a : α) (h : pymax l₁ = some a) :
    ∃ m, pymax l₂ = some m ∧ a ≤ m := by
  obtain ⟨b, hb, hab⟩ := hdom a (pymax_mem l₁ a h)
  obtain ⟨m, hm, hbm⟩ := le_pymax_of_mem l₂ b hb
  exact ⟨m, hm, le_trans hab hbm⟩

theorem widenAt_length {α : Type} [LinearOrder α] :
    ∀ (mm : List (α × α)) (vs : List α), (widenAt mm vs).length = mm.length
  | _, [] => by simp [widenAt]
  | [], _ :: _ => by simp [widenAt]
  | (_, _) :: mm, v :: vs => by
      simp only [widenAt, List.length_cons, widenAt_length mm vs]

theorem widenAt_spread_dominates {α : Type} [LinearOrderedAddCommGroup α] :
    ∀ (mm : List (α × α)) (vs : List α) (p : α × α), p ∈ mm →
      ∃ q ∈ widenAt mm vs, p.2 - p.1 ≤ q.2 - q.1
  | mm, [], p, hp => ⟨p, by simpa [widenAt] using hp, le_refl _⟩
  | [], _ :: _, p, hp => absurd hp (List.not_mem_nil p)
  | (lo, hi) :: mm, v :: vs, p, hp => by
      rcases List.mem_cons.1 hp with rfl | hmem
      · refine ⟨(if v < lo then v else lo, if hi < v then v else hi),
          List.mem_cons_self _ _, ?_⟩
        show hi - lo ≤ (if hi < v then v else hi) - (if v < lo then v else lo)
        split_ifs with h1 h2 h2
        · rw [sub_self]
          exact sub_nonpos.2 (le_of_lt (h1.trans h2))
        · exact sub_le_sub_right (le_of_lt h1) lo
        · exact sub_le_sub_left (le_of_lt h2) hi
        · exact le_refl _
      · obtain ⟨q, hq, hle⟩ := widenAt_spread_dominates mm vs p hmem
        exact ⟨q, List.mem_cons_of_mem _ hq, hle⟩

theorem update_plot_minmax {α : Type} [LinearOrder α] [Sub α] (st : PlotState α)
    (c : List α) :
    (update_plot st c).1.minmax =
      if st.gap_count = 0 then
        st.minmax ++ (c.take st.y_list.length).map (fun v => (v, v))
      else widenAt st.minmax (c.take st.y_list.length) := rfl

theorem gapOf_update_ge {α : Type} [LinearOrderedAddCommGroup α] (st : PlotState α)
    (c : List α) (a : α) (h : gapOf st.minmax = some a) :
    ∃ b, gapOf (update_plot st c).1.minmax = some b ∧ a ≤ b := by
  rw [update_plot_minmax]
  by_cases hg : st.gap_count = 0
  · rw [if_pos hg]
    unfold gapOf at h ⊢
    refine pymax_dominated _ _ ?_ a h
    intro x hx
    exact ⟨x, by rw [List.map_append]; exact List.mem_append_left _ hx, le_refl x⟩
  · rw [if_neg hg]
    unfold gapOf at h ⊢
    refine pymax_dominated _ _ ?_ a h
    intro x hx
    obtain ⟨p, hp, rfl⟩ := List.mem_map.1 hx
    obtain ⟨q, hq, hle⟩ := widenAt_spread_dominates st.minmax _ p hp
    exact ⟨q.2 - q.1, List.mem_map_of_mem _ hq, hle⟩

theorem gapOf_runPlot_ge {α : Type} [LinearOrderedAddCommGroup α] :
    ∀ (fs : List (List α)) (st : PlotState α) (a : α), gapOf st.minmax = some a →
      ∃ b, gapOf (runPlot st fs).minmax = some b ∧ a ≤ b
  | [], _, a, h => ⟨a, h, le_refl a⟩
  | c :: cs, st, a, h => by
      obtain ⟨b, hb, hab⟩ := gapOf_update_ge st c a h
      obtain ⟨b', hb', hbb'⟩ := gapOf_runPlot_ge cs _ b hb
      exact ⟨b', hb', le_trans hab hbb'⟩

/-! ## C9 -/

/-- C9: once an `update_plot` call has reported a gap `a`, every later
reported gap (after any further sequence of accepted frames) is at
least `a` — the reported gap value is non-decreasing across consecutive
accepted frames, because widening only ever touches the leading
accumulator entries and no entry is removed or overwritten.  (The value
reported by an update equals `gapOf` of the updated accumulator, which
`runPlot` carries forward.) -/
theorem gap_monotone {α : Type} [LinearOrderedAddCommGroup α] (st : PlotState α)
    (c : List α) (fs : List (List α)) (a : α)
    (h : (update_plot st c).2 = some a) :
    ∃ b, gapOf (runPlot (update_plot st c).1 fs).minmax = some b ∧ a ≤ b := by
  have hgap : gapOf (update_plot st c).1.minmax = some a := h
  exact gapOf_runPlot_ge fs _ a hgap

theorem gap_monotone_witness :
    ∃ b, gapOf (runPlot (update_plot plotInitZ [5]).1 [[7]]).minmax = some b ∧
      (0 : ℤ) ≤ b :=
  gap_monotone plotInitZ [5] [[7]] 0 (by decide)

/-! ## C10 -/

theorem runPlot_minmax_growth :
    ∀ (frames : List (List ℚ)) (st : PlotState ℚ) (k : ℕ),
      st.y_list.length = NSUB →
      (∀ c ∈ frames, c.length = NSUB) →
      st.gap_count = k % GAP_PACKET_NUM →
      st.minmax.length = NSUB * ((k + (GAP_PACKET_NUM - 1)) / GAP_PACKET_NUM) →
      (runPlot st frames).minmax.length =
        NSUB * ((k + frames.length + (GAP_PACKET_NUM - 1)) / GAP_PACKET_NUM)
  | [], st, k, _, _, _, hmm => by simpa using hmm
  | c :: cs, st, k, hy, hlen, hgc, hmm => by
      have hc : c.length = NSUB := hlen c (List.mem_cons_self c cs)
      have htake : (c.take st.y_list.length).length = NSUB := by
        rw [List.length_take, hy, hc, min_self]
      have hy' : (update_plot st c).1.y_list.length = NSUB := by
        rw [update_plot_y_list, List.length_zipWith, hy, hc, min_self]
      have hgc' : (update_plot st c).1.gap_count = (k + 1) % GAP_PACKET_NUM := by
        show (st.gap_count + 1) % GAP_PACKET_NUM = (k + 1) % GAP_PACKET_NUM
        rw [hgc]
        simp only [GAP_PACKET_NUM]
        omega
      have hmm' : (update_plot st c).1.minmax.length =
          NSUB * ((k + 1 + (GAP_PACKET_NUM - 1)) / GAP_PACKET_NUM) := by
        rw [update_plot_minmax]
        by_cases hg : st.gap_count = 0
        · rw [if_pos hg, List.length_append, List.length_map, htake, hmm]
          have hk : k % GAP_PACKET_NUM = 0 := by rw [← hgc, hg]
          simp only [GAP_PACKET_NUM] at hk ⊢
          have : (k + 1 + 19) / 20 = (k + 19) / 20 + 1 := by omega
          rw [this]
          ring
        · rw [if_neg hg, widenAt_length, hmm]
          have hk : k % GAP_PACKET_NUM ≠ 0 := by rw [← hgc]; exact hg
          simp only [GAP_PACKET_NUM] at hk ⊢
          have : (k + 1 + 19) / 20 = (k + 19) / 20 := by omega
          rw [this]
      have := runPlot_minmax_growth cs (update_plot st c).1 (k + 1) hy'
        (fun c' hc' => hlen c' (List.mem_cons_of_mem _ hc')) hgc' hmm'
      show (runPlot (update_plot st c).1 cs).minmax.length = _
      rw [this]
      congr 2
      simp only [List.length_cons]
      omega

/-- C10: starting from the freshly initialised plot state (windows from
`setup_plot`, empty accumulator, counter 0), after processing `k`
accepted frames of `NSUB` amplitudes each, the min/max accumulator
holds exactly `NSUB * ceil(k / G)` entries (`G = GAP_PACKET_NUM`):
every frame hitting the cadence boundary (`gap_count = 0`) appends
`NSUB` fresh pairs and no entry is ever removed, so the accumulator
grows without bound over the session. -/
theorem minmax_growth (frames : List (List ℚ))
    (hlen : ∀ c ∈ frames, c.length = NSUB) :
    (runPlot ⟨setup_y_list, [], 0⟩ frames).minmax.length =
      NSUB * ((frames.length + (GAP_PACKET_NUM - 1)) / GAP_PACKET_NUM) := by
  have := runPlot_minmax_growth frames ⟨setup_y_list, [], 0⟩ 0
    (by simp [setup_y_list]) hlen rfl (by decide)
  simpa using this

theorem minmax_growth_witness :
    (runPlot ⟨setup_y_list, [], 0⟩ [List.replicate NSUB (0 : ℚ)]).minmax.length =
      NSUB * ((([List.replicate NSUB (0 : ℚ)] : List (List ℚ)).length +
        (GAP_PACKET_NUM - 1)) / GAP_PACKET_NUM) :=
  minmax_growth _ (by simp)

/-! ## C1 -/

set_option maxRecDepth 40000 in
/-- C1 (evaluation of the code at the spec's scenario): after the 20
accepted frames with amplitudes 1..20 on the one subcarrier and the
21st frame (a reset boundary, amplitude 21), the accumulator is NOT
reset to `[(21, 21)]`: the boundary update appended a fresh pair and
kept the old one, so the state is `[(1, 20), (21, 21)]` and the gap
reported after the 21st frame is `19`, not `0`. -/
theorem gap_after_reset_boundary_eval :
    (runPlot plotInitZ rampFrames).minmax = [(1, 20), (21, 21)] ∧
      gapOf (runPlot plotInitZ rampFrames).minmax = some 19 := by
  decide

/-! ## Capture-loop lemmas -/

theorem parseFrame_short (pkt : List ℕ) (h : pkt.length < 14) :
    parseFrame pkt = .error .needData := by
  unfold parseFrame
  rw [if_pos h]

/-! ## C5 -/

/-- C5 (counterexample): a 3-byte garbage frame does not give a silent
reject — `dpkt.ethernet.Ethernet(pkt)` raises `NeedData`, which is
uncaught, so the loop body ends in an exception instead of continuing
with the next frame. -/
theorem malformed_frame_crashes_cex :
    sniffStep selected_mac sniffState0 1 [0, 1, 2] = .raise .needData := rfl

/-- C5 (amended): a captured frame shorter than the 14-byte Ethernet
header makes the frame decoding raise `dpkt.NeedData`; the exception is
uncaught and terminates the capture loop (other malformed layouts raise
`AttributeError` the same way).  Only well-formed frames that merely
fail the MAC filter are skipped without an exception. -/
theorem malformed_frame_raises (mac : List ℕ) (st : SniffState) (ts : ℚ)
    (pkt : List ℕ) (hdup : ¬ isDup st.before_ts ts) (hshort : pkt.length < 14) :
    sniffStep mac st ts pkt = .raise .needData := by
  unfold sniffStep
  rw [if_neg hdup, parseFrame_short pkt hshort]

theorem malformed_frame_raises_witness :
    sniffStep selected_mac sniffState0 1 [255] = .raise .needData :=
  malformed_frame_raises selected_mac sniffState0 1 [255] (by decide) (by decide)

/-! ## C4 -/

/-- C4 (counterexample): a frame that passes the whole filter (UDP
layout, target MAC at payload offset 4) but carries an empty CSI block
does not get dropped-and-skipped: `np.frombuffer` raises `ValueError`,
the loop body ends in an uncaught exception. -/
theorem short_csi_crashes_cex :
    sniffStep selected_mac sniffState0 1 pktShortCsi = .raise .valueError := rfl

/-- C4 (amended): for every frame that passes the filter but whose CSI
payload is shorter than `4 * N` bytes (`N = nsub 20 = 64`), the
`np.frombuffer` call raises `ValueError`, which is uncaught and
terminates the capture loop.  No partial amplitude vector reaches the
persistence or display sinks (the exception fires before any output is
appended), but the loop does NOT continue with subsequent frames. -/
theorem short_csi_raises (mac : List ℕ) (st : SniffState) (ts : ℚ)
    (pkt pl : List ℕ)
    (hdup : ¬ isDup st.before_ts ts)
    (hparse : parseFrame pkt = .ok pl)
    (hmac : (pl.drop 4).take 6 = mac)
    (hshort : (pl.drop 18).length < 4 * nsub dpkt_ip_len_default) :
    sniffStep mac st ts pkt = .raise .valueError := by
  unfold sniffStep
  rw [if_neg hdup, hparse]
  dsimp only
  rw [if_neg (by simp [hmac])]
  rw [process_csi_err _ _ hshort]

theorem short_csi_raises_witness :
    sniffStep selected_mac sniffState0 1 pktShortCsi2 = .raise .valueError :=
  short_csi_raises selected_mac sniffState0 1 pktShortCsi2
    (payloadShort ++ [0, 0]) (by decide) (by rfl) (by rfl) (by decide)

/-! ## C7 -/

set_option maxRecDepth 100000 in
/-- C7 (counterexample): two accepted frames declaring different values
(302 and 2000) in the IP header's total-length field are both processed
with the same constant bandwidth: `ip.__hdr__[2][2]` is the class-level
default 20, so both frames yield amplitude vectors of the same length
`nsub 20 = 64`.  Different declared header values do NOT yield
different bandwidths or different `N`. -/
theorem bandwidth_ignores_header_cex :
    ip_len_field pktFull = 302 ∧ ip_len_field pktFullBigLen = 2000 ∧
      acceptedAmpLen (sniffStep selected_mac sniffState0 1 pktFull) =
        some (nsub 20) ∧
      acceptedAmpLen (sniffStep selected_mac sniffState0 1 pktFullBigLen) =
        some (nsub 20) :=
  ⟨rfl, rfl, rfl, rfl⟩

/-- C7 (amended): on acceptance the filter hands downstream the CSI
payload `udp.data[18:]` (the UDP payload from fixed offset 18 to its
end) together with the CONSTANT bandwidth value 20 — the default of the
third field descriptor of `dpkt.ip.IP.__hdr__` — independent of
anything the frame's IP header declares; hence every accepted frame is
processed with the same `N = nsub 20 = NSUB`. -/
theorem bandwidth_constant (mac : List ℕ) (st : SniffState) (ts : ℚ)
    (pkt pl : List ℕ)
    (hdup : ¬ isDup st.before_ts ts)
    (hparse : parseFrame pkt = .ok pl)
    (hmac : (pl.drop 4).take 6 = mac)
    (hlen : 4 * nsub dpkt_ip_len_default ≤ (pl.drop 18).length) :
    ∃ v, sniffStep mac st ts pkt =
        .accept { before_ts := ts, plot := (update_plot st.plot v).1,
                  outputs := st.outputs ++ [v] } ∧
      process_csi_data (pl.drop 18) dpkt_ip_len_default = .ok v ∧
      v.length = nsub BANDWIDTH := by
  refine ⟨_, ?_, process_csi_ok _ _ hlen, ?_⟩
  · unfold sniffStep
    rw [if_neg hdup, hparse]
    dsimp only
    rw [if_neg (by simp [hmac])]
    rw [process_csi_ok _ _ hlen]
  · rw [List.length_map, fftshift_length, pairUp_length, bytesToInt16_length,
      List.length_take]
    have h1 : nsub dpkt_ip_len_default = 64 := rfl
    have h2 : nsub BANDWIDTH = 64 := rfl
    rw [h1, h2]
    rw [h1] at hlen
    omega

set_option maxRecDepth 100000 in
theorem bandwidth_constant_witness :
    ∃ v, sniffStep selected_mac sniffState0 1 pktFull =
        .accept { before_ts := 1, plot := (update_plot sniffState0.plot v).1,
                  outputs := sniffState0.outputs ++ [v] } ∧
      process_csi_data (payload256.drop 18) dpkt_ip_len_default = .ok v ∧
      v.length = nsub BANDWIDTH :=
  bandwidth_constant selected_mac sniffState0 1 pktFull payload256
    (by decide) (by rfl) (by rfl) (by decide)

/-! ## C6 -/

/-- C6: the duplicate-suppression check rejects a captured frame exactly
when its integer-truncated timestamp equals the integer truncation of
the previously recorded timestamp AND the two timestamps also agree
after truncation to one decimal place; on such a duplicate the frame is
dropped — no output row is added and the plot state is untouched, so the
first frame's result stands — and only `before_ts` advances to the
dropped frame's timestamp. -/
theorem dedup_exact (mac : List ℕ) (st : SniffState) (ts : ℚ) (pkt : List ℕ) :
    ((∃ s, sniffStep mac st ts pkt = .skipDup s) ↔
      (pyInt ts = pyInt st.before_ts ∧ truncate ts 1 = truncate st.before_ts 1)) ∧
    ∀ s, sniffStep mac st ts pkt = .skipDup s →
      s.outputs = st.outputs ∧ s.plot = st.plot ∧ s.before_ts = ts := by
  have hstep : isDup st.before_ts ts →
      sniffStep mac st ts pkt = .skipDup { st with before_ts := ts } := by
    intro h
    unfold sniffStep
    rw [if_pos h]
  by_cases hd : isDup st.before_ts ts
  · refine ⟨⟨fun _ => hd, fun _ => ⟨_, hstep hd⟩⟩, ?_⟩
    intro s hs
    rw [hstep hd] at hs
    injection hs with hs
    subst hs
    exact ⟨rfl, rfl, rfl⟩
  · have hnot : ∀ s, sniffStep mac st ts pkt ≠ .skipDup s := by
      intro s
      unfold sniffStep
      rw [if_neg hd]
      cases hp : parseFrame pkt with
      | error e => simp
      | ok pl =>
          dsimp only
          by_cases hm : (pl.drop 4).take 6 ≠ mac
          · rw [if_pos hm]
            simp
          · rw [if_neg hm]
            cases hq : process_csi_data (pl.drop 18) dpkt_ip_len_default with
            | error e => simp
            | ok v => simp
    refine ⟨⟨fun hex => ?_, fun hcond => absurd hcond hd⟩, fun s hs => absurd hs (hnot s)⟩
    obtain ⟨s, hs⟩ := hex
    exact absurd hs (hnot s)

theorem dedup_exact_witness :
    ∃ s, sniffStep selected_mac sniffStateTs (617 / 50) [] = StepResult.skipDup s :=
  (dedup_exact selected_mac sniffStateTs (617 / 50) []).1.mpr ⟨rfl, rfl⟩
